import Mathlib

/-!
# Verification of `gpflow/conditionals/util.py`

Shallow embedding of the GP conditional routines of `src/gpflow/conditionals/util.py`
(`base_conditional`, `independent_interdomain_conditional`,
`fully_correlated_conditional_repeat`, `fully_correlated_conditional`,
`expand_independent_outputs`), together with theorems settling the frozen claims.

Numbers are modelled by `ℚ`; a dense tensor of shape `[a, b, ...]` is modelled by a
curried function `Fin a → Fin b → ... → ℚ`.  TensorFlow operations used by the source
are embedded one by one:

* `tf.linalg.cholesky` reads only the lower triangle of its input and performs the
  classical column-by-column algorithm; the square roots it takes are modelled with
  `ratSqrt`, which is exact on perfect-square rationals (every concrete input used by a
  theorem below keeps the pivots at `1`, where `ratSqrt` is exact).
* `tf.linalg.triangular_solve` with `lower=True` (`lowerSolve`) is forward substitution
  reading only the lower triangle; with `lower=False` (`upperSolve`) it is backward
  substitution reading only the upper triangle, column by column of the right hand
  side.  The column index is kept abstract (`ι`), so that the `tf.reshape` the source
  performs on the right-hand side before a batched solve (merging the `N`,`P` axes into
  one flat axis) is modelled by taking `ι := Fin N × Fin P`: the reshape is a pure
  re-indexing bijection and the solve acts on each column independently.
* `tf.matrix_band_part(x, -1, 0)` (`bandLower`) zeroes the strictly upper triangle.

Fallible behaviour (Python `raise`, and TensorFlow shape errors) is modelled with
`Except Err`; `Err` distinguishes the `ValueError` raises, the `NotImplementedError`
raises, and TensorFlow shape/rank rejections.
-/

namespace GPflowCond

/-- A dense `[m, n]` tensor of rationals. -/
abbrev Mat (m n : ℕ) : Type := Fin m → Fin n → ℚ

/-- Rational square root used by the `tf.linalg.cholesky` model: exact on
perfect-square rationals (numerator and denominator perfect squares), an
approximation elsewhere.  All concrete inputs in this file have pivots equal to `1`,
where `ratSqrt` is exact. -/
def ratSqrt (x : ℚ) : ℚ := (Nat.sqrt x.num.toNat : ℚ) / (Nat.sqrt x.den : ℚ)

/-- One column step of the Cholesky algorithm: fill column `j` of the factor `L`
from the already-computed columns `< j`.  Only the lower triangle of `A` is read,
matching `tf.linalg.cholesky`. -/
def cholCol {n : ℕ} (A : Mat n n) (L : Mat n n) (j : Fin n) : Mat n n :=
  let d : ℚ := ratSqrt (A j j - ∑ t : Fin n, if t < j then (L j t) ^ 2 else 0)
  fun i k =>
    if k = j then
      if i < j then 0
      else if i = j then d
      else (A i j - ∑ t : Fin n, if t < j then L i t * L j t else 0) / d
    else L i k

/-- `tf.linalg.cholesky`: lower-triangular Cholesky factor, columns computed left to
right. -/
def cholesky {n : ℕ} (A : Mat n n) : Mat n n :=
  (List.finRange n).foldl (cholCol A) (fun _ _ => 0)

/-- `tf.linalg.triangular_solve(L, B, lower=True)`: forward substitution, reading only
the lower triangle of `L`.  The column index type `ι` is abstract: each column of `B`
is solved independently, so a reshaped right-hand side is modelled by a product column
index. -/
def lowerSolve {m : ℕ} {ι : Type} (L : Mat m m) (B : Fin m → ι → ℚ) : Fin m → ι → ℚ :=
  (List.finRange m).foldl
    (fun X i => fun r c =>
      if r = i then (B i c - ∑ k : Fin m, if k < i then L i k * X k c else 0) / L i i
      else X r c)
    (fun _ _ => 0)

/-- `tf.linalg.triangular_solve(U, B, lower=False)`: backward substitution, reading
only the upper triangle of `U`. -/
def upperSolve {m : ℕ} {ι : Type} (U : Mat m m) (B : Fin m → ι → ℚ) : Fin m → ι → ℚ :=
  ((List.finRange m).reverse).foldl
    (fun X i => fun r c =>
      if r = i then (B i c - ∑ k : Fin m, if i < k then U i k * X k c else 0) / U i i
      else X r c)
    (fun _ _ => 0)

/-- `tf.matrix_band_part(A, -1, 0)`: keep the lower triangle, zero the strictly upper
triangle. -/
def bandLower {n : ℕ} (A : Mat n n) : Mat n n :=
  fun i j => if (j : ℕ) ≤ (i : ℕ) then A i j else 0

/-- The polymorphic-rank `q_sqrt` argument of the conditional routines.  The source
dispatches on `q_sqrt.shape.ndims`; the embedding carries the rank in a tag:
`diag` is the rank-2 form `[m, r]`, `full` the rank-3 form `[r, m, m]`, and `vec` a
rank-1 tensor `[k]` (used to probe the routines' rank validation). -/
inductive QSqrt (m r : ℕ) : Type where
  | diag : (Fin m → Fin r → ℚ) → QSqrt m r
  | full : (Fin r → Fin m → Fin m → ℚ) → QSqrt m r
  | vec : (k : ℕ) → (Fin k → ℚ) → QSqrt m r

/-- Fatal outcomes of the routines: Python `ValueError` raises, Python
`NotImplementedError` raises, and TensorFlow shape/rank rejections. -/
inductive Err : Type where
  | valueError : Err
  | notImplemented : Err
  | shapeError : Err
deriving DecidableEq

deriving instance DecidableEq for Except

/-- The projection matrix `A = Lm⁻¹ · Kmn` of `base_conditional`
(util.py lines 48-52): Cholesky factor of `Kmm`, then a forward triangular solve. -/
def projA {M N : ℕ} (Kmm : Mat M M) (Kmn : Mat M N) : Mat M N :=
  lowerSolve (cholesky Kmm) Kmn

/-- `base_conditional` (util.py lines 10-94), `full_cov=False` branch, for a rank-2
`Kmn` (no leading batch dimensions: lines 42-45 are then the identity permutation and
the `broadcast_to` calls only add the replica axis, kept explicit here).
Returns `(fmean [N, R], fvar [N, R])`. -/
def base_conditional_diag {M N R : ℕ} (Kmn : Mat M N) (Kmm : Mat M M)
    (Knn : Fin N → ℚ) (f : Mat M R) (q_sqrt : Option (QSqrt M R)) (white : Bool) :
    Except Err (Mat N R × Mat N R) :=
  let Lm := cholesky Kmm
  let A := lowerSolve Lm Kmn
  -- lines 60-62: fvar = Knn - reduce_sum(square(A), -2), broadcast to [R, N]
  let fvar : Fin R → Fin N → ℚ := fun _ n => Knn n - ∑ m : Fin M, (A m n) ^ 2
  -- lines 64-66: another backsubstitution in the unwhitened case
  let Aw := if white then A else upperSolve (fun i j => Lm j i) A
  -- line 71: fmean = matmul(A, function, transpose_a=True)
  let fmean : Mat N R := fun n r => ∑ m : Fin M, Aw m n * f m r
  match q_sqrt with
  | none =>
      -- line 92: fvar transposed to [N, R]
      .ok (fmean, fun n r => fvar r n)
  | some (.diag q) =>
      -- line 76: LTA = A * expand_dims(transpose(q_sqrt), 2); line 89 then line 92
      .ok (fmean, fun n r => fvar r n + ∑ m : Fin M, (Aw m n * q m r) ^ 2)
  | some (.full Lq) =>
      -- line 82: LTA = matmul(L, A, transpose_a=True); line 89 then line 92
      .ok (fmean, fun n r => fvar r n + ∑ m : Fin M, (∑ mm : Fin M, Lq r mm m * Aw mm n) ^ 2)
  | some (.vec _ _) =>
      -- lines 83-84: raise ValueError(f"Bad dimension for q_sqrt: ...")
      .error .valueError

/-- `base_conditional` (util.py lines 10-94), `full_cov=True` branch, rank-2 `Kmn`.
Returns `(fmean [N, R], fvar [R, N, N])`. -/
def base_conditional_full {M N R : ℕ} (Kmn : Mat M N) (Kmm : Mat M M)
    (Knn : Mat N N) (f : Mat M R) (q_sqrt : Option (QSqrt M R)) (white : Bool) :
    Except Err (Mat N R × (Fin R → Mat N N)) :=
  let Lm := cholesky Kmm
  let A := lowerSolve Lm Kmn
  -- lines 56-58: fvar = Knn - matmul(A, A, transpose_a=True), broadcast to [R, N, N]
  let fvar : Fin R → Mat N N := fun _ i j => Knn i j - ∑ m : Fin M, A m i * A m j
  let Aw := if white then A else upperSolve (fun i j => Lm j i) A
  let fmean : Mat N R := fun n r => ∑ m : Fin M, Aw m n * f m r
  match q_sqrt with
  | none => .ok (fmean, fvar)
  | some (.diag q) =>
      -- line 76 then line 87: fvar = fvar + matmul(LTA, LTA, transpose_a=True)
      .ok (fmean, fun r i j => fvar r i j + ∑ m : Fin M, (Aw m i * q m r) * (Aw m j * q m r))
  | some (.full Lq) =>
      -- line 82 then line 87
      .ok (fmean, fun r i j => fvar r i j +
        ∑ m : Fin M, (∑ mm : Fin M, Lq r mm m * Aw mm i) * (∑ mm : Fin M, Lq r mm m * Aw mm j))
  | some (.vec _ _) => .error .valueError

/-- The batched projection tensor `A` of `independent_interdomain_conditional`
(util.py lines 169-174): per-latent-process Cholesky of `Kmm`, then one batched
forward solve against `Kmn` reshaped to `[L, M, N*P]`.  The flat `N*P` column axis is
modelled by the product index `Fin N × Fin P`. -/
def interA {M L N P : ℕ} (Kmn : Fin M → Fin L → Fin N → Fin P → ℚ)
    (Kmm : Fin L → Mat M M) : Fin L → Fin M → Fin N × Fin P → ℚ :=
  fun l => lowerSolve (cholesky (Kmm l)) (fun m np => Kmn m l np.1 np.2)

/-- `independent_interdomain_conditional` (util.py lines 148-213) with
`full_cov=False`, `full_output_cov=False`.  Returns `(mean [N, P], var [N, P])`.

The `white=False` branch (line 190) calls
`tf.linalg.triangular_solve(Lm, Ar)` with `Lm : [L, M, M]` (rank 3) and the
rank-4 tensor `Ar : [L, M, N, P]`: the operands' batch shapes `[L]` and `[L, M]`
do not match, so TensorFlow rejects the call with a shape error before any mean is
produced; the branch is therefore modelled as `Err.shapeError`.  (Note the solve is
also applied to the untransposed `Lm`, unlike the `lower=False` transposed solve of
`base_conditional` line 66.)

A `q_sqrt` of rank 3 takes the `tf.matrix_band_part` branch (lines 197-198); ANY
other `q_sqrt` is routed to the diagonal branch (lines 199-200) without rank
validation.  For a rank-1 `q_sqrt` of length `k` that branch computes
`A * transpose(q_sqrt)[..., None]`, which broadcasts when `k = M` (per-`m` scaling)
or `k = 1` (uniform scaling) and is a shape error otherwise (the degenerate
stretch case `M = 1 < k` is not modelled; no claim exercises it). -/
def independent_interdomain_diag {M L N P : ℕ} (Kmn : Fin M → Fin L → Fin N → Fin P → ℚ)
    (Kmm : Fin L → Mat M M) (Knn : Fin N → Fin P → ℚ) (f : Mat M L)
    (q_sqrt : Option (QSqrt M L)) (white : Bool) :
    Except Err ((Fin N → Fin P → ℚ) × (Fin N → Fin P → ℚ)) :=
  let A := interA Kmn Kmm
  -- line 186: fvar = Knn - reshape(reduce_sum(square(A), [0, 1]), (N, P))
  let fvar : Fin N → Fin P → ℚ := fun n p => Knn n p - ∑ l : Fin L, ∑ m : Fin M, (A l m (n, p)) ^ 2
  if white then
    -- line 193: fmean = tensordot(Ar, f, [[1, 0], [0, 1]])
    let fmean : Fin N → Fin P → ℚ := fun n p => ∑ m : Fin M, ∑ l : Fin L, A l m (n, p) * f m l
    match q_sqrt with
    | none => .ok (fmean, fvar)
    | some (.full Lq) =>
        -- lines 197-198 then 212: LTA = matmul(band_part(q_sqrt, -1, 0), A, transpose_a=True)
        .ok (fmean, fun n p => fvar n p +
          ∑ l : Fin L, ∑ m : Fin M, (∑ mm : Fin M, bandLower (Lq l) mm m * A l mm (n, p)) ^ 2)
    | some (.diag qd) =>
        -- line 200 then 212: LTA = A * transpose(q_sqrt)[..., None]
        .ok (fmean, fun n p => fvar n p +
          ∑ l : Fin L, ∑ m : Fin M, (A l m (n, p) * qd m l) ^ 2)
    | some (.vec k v) =>
        if hk : k = M then
          .ok (fmean, fun n p => fvar n p +
            ∑ l : Fin L, ∑ m : Fin M, (A l m (n, p) * v (Fin.cast hk.symm m)) ^ 2)
        else if hk1 : k = 1 then
          .ok (fmean, fun n p => fvar n p +
            ∑ l : Fin L, ∑ m : Fin M, (A l m (n, p) * v ⟨0, by omega⟩) ^ 2)
        else .error .shapeError
  else .error .shapeError

/-- `independent_interdomain_conditional` (util.py lines 148-213) with
`full_cov=True`, `full_output_cov=False`.  Returns `(mean [N, P], var [P, N, N])`.
The `white=False` branch fails exactly as in `independent_interdomain_diag`. -/
def independent_interdomain_fullcov {M L N P : ℕ} (Kmn : Fin M → Fin L → Fin N → Fin P → ℚ)
    (Kmm : Fin L → Mat M M) (Knn : Fin P → Mat N N) (f : Mat M L)
    (q_sqrt : Option (QSqrt M L)) (white : Bool) :
    Except Err ((Fin N → Fin P → ℚ) × (Fin P → Mat N N)) :=
  let A := interA Kmn Kmm
  -- lines 180-181: At = reshape(transpose(Ar), (P, N, M*L)); fvar = Knn - matmul(At, At, transpose_b=True)
  let fvar : Fin P → Mat N N := fun p i j =>
    Knn p i j - ∑ l : Fin L, ∑ m : Fin M, A l m (i, p) * A l m (j, p)
  if white then
    let fmean : Fin N → Fin P → ℚ := fun n p => ∑ m : Fin M, ∑ l : Fin L, A l m (n, p) * f m l
    match q_sqrt with
    | none => .ok (fmean, fvar)
    | some (.full Lq) =>
        -- lines 197-198 then 205-207
        .ok (fmean, fun p i j => fvar p i j +
          ∑ l : Fin L, ∑ m : Fin M,
            (∑ mm : Fin M, bandLower (Lq l) mm m * A l mm (i, p)) *
            (∑ mm : Fin M, bandLower (Lq l) mm m * A l mm (j, p)))
    | some (.diag qd) =>
        .ok (fmean, fun p i j => fvar p i j +
          ∑ l : Fin L, ∑ m : Fin M, (A l m (i, p) * qd m l) * (A l m (j, p) * qd m l))
    | some (.vec k v) =>
        if hk : k = M then
          .ok (fmean, fun p i j => fvar p i j +
            ∑ l : Fin L, ∑ m : Fin M,
              (A l m (i, p) * v (Fin.cast hk.symm m)) * (A l m (j, p) * v (Fin.cast hk.symm m)))
        else if hk1 : k = 1 then
          .ok (fmean, fun p i j => fvar p i j +
            ∑ l : Fin L, ∑ m : Fin M, (A l m (i, p) * v ⟨0, by omega⟩) * (A l m (j, p) * v ⟨0, by omega⟩))
        else .error .shapeError
  else .error .shapeError

/-- Variance result of `fully_correlated_conditional_repeat`: the source only adds
the leading replica axis `R` inside the `q_sqrt is not None` branch
(`fvar[None, ...] + addvar`, util.py lines 303-315), so the returned variance either
lacks (`noRep`) or carries (`rep`) the replica axis. -/
inductive VarRes (R : ℕ) (α : Type) : Type where
  | noRep : α → VarRes R α
  | rep : (Fin R → α) → VarRes R α
deriving DecidableEq

/-- The projection matrix `A` of `fully_correlated_conditional_repeat`
(util.py lines 260-266): joint Cholesky of the `[J, J]` `Kmm`, one forward solve
against `Kmn` reshaped to `[J, N*K]` (flat columns modelled by `Fin N × Fin K`). -/
def fccA {J N K : ℕ} (Kmm : Mat J J) (Kmn : Fin J → Fin N → Fin K → ℚ) :
    Fin J → Fin N × Fin K → ℚ :=
  lowerSolve (cholesky Kmm) (fun m nk => Kmn m nk.1 nk.2)

/-- `fully_correlated_conditional_repeat` (util.py lines 237-316) with
`full_cov=False`, `full_output_cov=False`.

Line 282 computes `reshape(reduce_sum(square(A), [0, 1]), (N, K))`, but `A` is the
rank-2 `[J, N*K]` tensor, so the reduction over both axes yields a scalar; the
reshape to `(N, K)` is a TensorFlow shape error unless `N*K = 1`, in which case the
branch computes `Knn` minus the total sum of squares of `A`.  The shape error is
raised before the `white` check at line 285, the `NotImplementedError` of which is
modelled by `Err.notImplemented` (as is the rank-2 `q_sqrt` raise at line 299).
A rank-1 `q_sqrt` fails in `tf.matrix_band_part` (line 294, requires rank at least
2) before the rank dispatch at line 295. -/
def fcc_repeat_diagdiag {J N K R : ℕ} (Kmn : Fin J → Fin N → Fin K → ℚ)
    (Kmm : Mat J J) (Knn : Fin N → Fin K → ℚ) (f : Mat J R)
    (q_sqrt : Option (QSqrt J R)) (white : Bool) :
    Except Err ((Fin R → Fin N → Fin K → ℚ) × VarRes R (Fin N → Fin K → ℚ)) :=
  let A := fccA Kmm Kmn
  if _hNK : N * K = 1 then
    let fvar : Fin N → Fin K → ℚ := fun n k =>
      Knn n k - ∑ m : Fin J, ∑ nk : Fin N × Fin K, (A m nk) ^ 2
    if white then
      -- lines 290-291: fmean = reshape(matmul(f, A, transpose_a=True), (R, N, K))
      let fmean : Fin R → Fin N → Fin K → ℚ := fun r n k => ∑ m : Fin J, f m r * A m (n, k)
      match q_sqrt with
      | none => .ok (fmean, .noRep fvar)
      | some (.full Lq) =>
          -- lines 294-297 then 313-315
          .ok (fmean, .rep (fun r n k => fvar n k +
            ∑ m : Fin J, (∑ mm : Fin J, bandLower (Lq r) mm m * A mm (n, k)) ^ 2))
      | some (.diag _) => .error .notImplemented
      | some (.vec _ _) => .error .shapeError
    else .error .notImplemented
  else .error .shapeError

/-- `fully_correlated_conditional_repeat` (util.py lines 237-316) with
`full_cov=True`, `full_output_cov=False` (lines 272-274, 306-309).
Variance without `q_sqrt`: `[K, N, N]`; with a rank-3 `q_sqrt`: `[R, K, N, N]`. -/
def fcc_repeat_fullcov {J N K R : ℕ} (Kmn : Fin J → Fin N → Fin K → ℚ)
    (Kmm : Mat J J) (Knn : Fin K → Mat N N) (f : Mat J R)
    (q_sqrt : Option (QSqrt J R)) (white : Bool) :
    Except Err ((Fin R → Fin N → Fin K → ℚ) × VarRes R (Fin K → Mat N N)) :=
  let A := fccA Kmm Kmn
  let fvar : Fin K → Mat N N := fun k i j =>
    Knn k i j - ∑ m : Fin J, A m (i, k) * A m (j, k)
  if white then
    let fmean : Fin R → Fin N → Fin K → ℚ := fun r n k => ∑ m : Fin J, f m r * A m (n, k)
    match q_sqrt with
    | none => .ok (fmean, .noRep fvar)
    | some (.full Lq) =>
        .ok (fmean, .rep (fun r k i j => fvar k i j +
          ∑ m : Fin J, (∑ mm : Fin J, bandLower (Lq r) mm m * A mm (i, k)) *
            (∑ mm : Fin J, bandLower (Lq r) mm m * A mm (j, k))))
    | some (.diag _) => .error .notImplemented
    | some (.vec _ _) => .error .shapeError
  else .error .notImplemented

/-- `fully_correlated_conditional_repeat` (util.py lines 237-316) with
`full_cov=False`, `full_output_cov=True` (lines 275-279, 310-312).
Variance without `q_sqrt`: `[N, K, K]`; with a rank-3 `q_sqrt`: `[R, N, K, K]`. -/
def fcc_repeat_outputcov {J N K R : ℕ} (Kmn : Fin J → Fin N → Fin K → ℚ)
    (Kmm : Mat J J) (Knn : Fin N → Mat K K) (f : Mat J R)
    (q_sqrt : Option (QSqrt J R)) (white : Bool) :
    Except Err ((Fin R → Fin N → Fin K → ℚ) × VarRes R (Fin N → Mat K K)) :=
  let A := fccA Kmm Kmn
  let fvar : Fin N → Mat K K := fun n k k' =>
    Knn n k k' - ∑ m : Fin J, A m (n, k) * A m (n, k')
  if white then
    let fmean : Fin R → Fin N → Fin K → ℚ := fun r n k => ∑ m : Fin J, f m r * A m (n, k)
    match q_sqrt with
    | none => .ok (fmean, .noRep fvar)
    | some (.full Lq) =>
        .ok (fmean, .rep (fun r n k k' => fvar n k k' +
          ∑ m : Fin J, (∑ mm : Fin J, bandLower (Lq r) mm m * A mm (n, k)) *
            (∑ mm : Fin J, bandLower (Lq r) mm m * A mm (n, k'))))
    | some (.diag _) => .error .notImplemented
    | some (.vec _ _) => .error .shapeError
  else .error .notImplemented

/-- `fully_correlated_conditional_repeat` (util.py lines 237-316) with
`full_cov=True`, `full_output_cov=True` (lines 269-271, 303-305).
Variance without `q_sqrt`: `[N, K, N, K]`; with a rank-3 `q_sqrt`: `[R, N, K, N, K]`. -/
def fcc_repeat_fullboth {J N K R : ℕ} (Kmn : Fin J → Fin N → Fin K → ℚ)
    (Kmm : Mat J J) (Knn : Fin N → Fin K → Fin N → Fin K → ℚ) (f : Mat J R)
    (q_sqrt : Option (QSqrt J R)) (white : Bool) :
    Except Err ((Fin R → Fin N → Fin K → ℚ) ×
      VarRes R (Fin N → Fin K → Fin N → Fin K → ℚ)) :=
  let A := fccA Kmm Kmn
  let fvar : Fin N → Fin K → Fin N → Fin K → ℚ := fun n k n' k' =>
    Knn n k n' k' - ∑ m : Fin J, A m (n, k) * A m (n', k')
  if white then
    let fmean : Fin R → Fin N → Fin K → ℚ := fun r n k => ∑ m : Fin J, f m r * A m (n, k)
    match q_sqrt with
    | none => .ok (fmean, .noRep fvar)
    | some (.full Lq) =>
        .ok (fmean, .rep (fun r n k n' k' => fvar n k n' k' +
          ∑ m : Fin J, (∑ mm : Fin J, bandLower (Lq r) mm m * A mm (n, k)) *
            (∑ mm : Fin J, bandLower (Lq r) mm m * A mm (n', k'))))
    | some (.diag _) => .error .notImplemented
    | some (.vec _ _) => .error .shapeError
  else .error .notImplemented

/-- `fully_correlated_conditional` (util.py lines 216-234), `full_cov=False`,
`full_output_cov=False`: calls the repeat variant and returns `m[0, ...], v[0, ...]`.
Python's `v[0, ...]` drops whatever the leading axis of `v` is: the replica axis when
the variance is rank-incremented (`rep`, right summand), but the first *query-point*
axis when it is not (`noRep`, left summand). -/
def fully_correlated_diagdiag {J N K R : ℕ} [NeZero N] [NeZero R]
    (Kmn : Fin J → Fin N → Fin K → ℚ) (Kmm : Mat J J) (Knn : Fin N → Fin K → ℚ)
    (f : Mat J R) (q_sqrt : Option (QSqrt J R)) (white : Bool) :
    Except Err ((Fin N → Fin K → ℚ) × ((Fin K → ℚ) ⊕ (Fin N → Fin K → ℚ))) :=
  match fcc_repeat_diagdiag Kmn Kmm Knn f q_sqrt white with
  | .error e => .error e
  | .ok (m, .noRep v) => .ok (m 0, .inl (v 0))
  | .ok (m, .rep v) => .ok (m 0, .inr (v 0))

/-- `fully_correlated_conditional` (util.py lines 216-234), `full_cov=True`,
`full_output_cov=False`: `m[0, ...], v[0, ...]`; the sliced axis of the variance is
the replica axis for `rep` but the leading *output* axis (size `K`) for `noRep`. -/
def fully_correlated_fullcov {J N K R : ℕ} [NeZero K] [NeZero R]
    (Kmn : Fin J → Fin N → Fin K → ℚ) (Kmm : Mat J J) (Knn : Fin K → Mat N N)
    (f : Mat J R) (q_sqrt : Option (QSqrt J R)) (white : Bool) :
    Except Err ((Fin N → Fin K → ℚ) × (Mat N N ⊕ (Fin K → Mat N N))) :=
  match fcc_repeat_fullcov Kmn Kmm Knn f q_sqrt white with
  | .error e => .error e
  | .ok (m, .noRep v) => .ok (m 0, .inl (v 0))
  | .ok (m, .rep v) => .ok (m 0, .inr (v 0))

/-- `fully_correlated_conditional` (util.py lines 216-234), `full_cov=False`,
`full_output_cov=True`: `m[0, ...], v[0, ...]`. -/
def fully_correlated_outputcov {J N K R : ℕ} [NeZero N] [NeZero R]
    (Kmn : Fin J → Fin N → Fin K → ℚ) (Kmm : Mat J J) (Knn : Fin N → Mat K K)
    (f : Mat J R) (q_sqrt : Option (QSqrt J R)) (white : Bool) :
    Except Err ((Fin N → Fin K → ℚ) × (Mat K K ⊕ (Fin N → Mat K K))) :=
  match fcc_repeat_outputcov Kmn Kmm Knn f q_sqrt white with
  | .error e => .error e
  | .ok (m, .noRep v) => .ok (m 0, .inl (v 0))
  | .ok (m, .rep v) => .ok (m 0, .inr (v 0))

/-- `fully_correlated_conditional` (util.py lines 216-234), `full_cov=True`,
`full_output_cov=True`: `m[0, ...], v[0, ...]`. -/
def fully_correlated_fullboth {J N K R : ℕ} [NeZero N] [NeZero R]
    (Kmn : Fin J → Fin N → Fin K → ℚ) (Kmm : Mat J J)
    (Knn : Fin N → Fin K → Fin N → Fin K → ℚ) (f : Mat J R)
    (q_sqrt : Option (QSqrt J R)) (white : Bool) :
    Except Err ((Fin N → Fin K → ℚ) ×
      ((Fin K → Fin N → Fin K → ℚ) ⊕ (Fin N → Fin K → Fin N → Fin K → ℚ))) :=
  match fcc_repeat_fullboth Kmn Kmm Knn f q_sqrt white with
  | .error e => .error e
  | .ok (m, .noRep v) => .ok (m 0, .inl (v 0))
  | .ok (m, .rep v) => .ok (m 0, .inr (v 0))

/-- `tf.linalg.diag` on an `[N, P]` tensor: embed the last axis as a diagonal
`[N, P, P]` (util.py line 139). -/
def tfDiag2 {N P : ℕ} (v : Fin N → Fin P → ℚ) : Fin N → Fin P → Fin P → ℚ :=
  fun n p p' => if p = p' then v n p else 0

/-- `tf.transpose` with no permutation argument on a `[P, N, N]` tensor: reverse all
axes (util.py line 136). -/
def tfRev3 {P N : ℕ} (v : Fin P → Fin N → Fin N → ℚ) : Fin N → Fin N → Fin P → ℚ :=
  fun a b p => v p b a

/-- `tf.linalg.diag` on an `[N, N, P]` tensor: embed the last axis as a diagonal,
giving `[N, N, P, P]` (util.py line 136). -/
def tfDiag3 {N P : ℕ} (v : Fin N → Fin N → Fin P → ℚ) :
    Fin N → Fin N → Fin P → Fin P → ℚ :=
  fun a b p q => if p = q then v a b p else 0

/-- `tf.transpose(·, [0, 2, 1, 3])` on an `[N, N, P, P]` tensor (util.py line 137). -/
def tfPerm0213 {N P : ℕ} (v : Fin N → Fin N → Fin P → Fin P → ℚ) :
    Fin N → Fin P → Fin N → Fin P → ℚ :=
  fun a p b q => v a b p q

/-- `expand_independent_outputs` (util.py lines 120-145) for a `full_cov=False`
input `fvar : [N, P]`: with `full_output_cov` the diagonal embedding of line 139,
otherwise the input unchanged (line 143). -/
def expand_independent_outputs_diag {N P : ℕ} (fvar : Fin N → Fin P → ℚ)
    (full_output_cov : Bool) :
    (Fin N → Fin P → ℚ) ⊕ (Fin N → Fin P → Fin P → ℚ) :=
  if full_output_cov then .inr (tfDiag2 fvar) else .inl fvar

/-- `expand_independent_outputs` (util.py lines 120-145) for a `full_cov=True`
input `fvar : [P, N, N]`: with `full_output_cov` the composite of lines 136-137,
otherwise the input unchanged (line 141). -/
def expand_independent_outputs_full {N P : ℕ} (fvar : Fin P → Mat N N)
    (full_output_cov : Bool) :
    (Fin P → Mat N N) ⊕ (Fin N → Fin P → Fin N → Fin P → ℚ) :=
  if full_output_cov then .inr (tfPerm0213 (tfDiag3 (tfRev3 fvar))) else .inl fvar

/-- Concrete rank-3 `q_sqrt` probe: the `2 × 2` identity as the single replica's
lower-triangular factor. -/
def qSqrtLow : Fin 1 → Mat 2 2 := fun _ => ![![1, 0], ![0, 1]]

/-- Concrete rank-3 `q_sqrt` probe: equal to `qSqrtLow` except for a single
strictly-upper-triangular entry set to `5`. -/
def qSqrtUp : Fin 1 → Mat 2 2 := fun _ => ![![1, 5], ![0, 1]]

/-! ## Helper lemmas -/

theorem finRangeOne : List.finRange 1 = [0] := rfl

theorem finRangeTwo : List.finRange 2 = [0, 1] := rfl

theorem finRangeThree : List.finRange 3 = [0, 1, 2] := rfl

theorem sumMulComm {n : ℕ} (a b : Fin n → ℚ) :
    ∑ m : Fin n, a m * b m = ∑ m : Fin n, b m * a m :=
  Finset.sum_congr rfl (fun m _ => mul_comm (a m) (b m))

/-! ## Claims -/

/-- C9: `expand_independent_outputs` changes no numerical values: with
`full_output_cov = false` (for either input layout, i.e. either value of `full_cov`)
it returns its input unchanged; with `full_output_cov = true` it embeds the input
variances as the diagonal of the output-axis matrix — `[N, P] → [N, P, P]`, and
`[P, N, N] → [N, P, N, P]` — with all entries off that diagonal equal to zero. -/
theorem expand_independent_outputs_values :
    (∀ (N P : ℕ) (v : Fin N → Fin P → ℚ),
      expand_independent_outputs_diag v false = .inl v) ∧
    (∀ (N P : ℕ) (v : Fin P → Mat N N),
      expand_independent_outputs_full v false = .inl v) ∧
    (∀ (N P : ℕ) (v : Fin N → Fin P → ℚ),
      expand_independent_outputs_diag v true =
        .inr (fun n p p' => if p = p' then v n p else 0)) ∧
    (∀ (N P : ℕ) (v : Fin P → Mat N N),
      expand_independent_outputs_full v true =
        .inr (fun n p n' p' => if p = p' then v p n' n else 0)) :=
  ⟨fun _ _ _ => rfl, fun _ _ _ => rfl, fun _ _ _ => rfl, fun _ _ _ => rfl⟩

/-- C7: when `q_sqrt` is omitted, the variance returned by `base_conditional` equals
exactly the base prior-conditioned variance — `Knn - Aᵀ·A` per replica in the
`full_cov` case, `Knn - colsum(A²)` transposed to `[N, R]` in the diagonal case,
constant across the replica axis — with no additive variational term, where `A` is
the projection matrix `Lm⁻¹ · Kmn`. -/
theorem base_conditional_no_qsqrt_variance :
    (∀ (M N R : ℕ) (Kmn : Mat M N) (Kmm : Mat M M) (Knn : Mat N N) (f : Mat M R)
        (white : Bool),
      (base_conditional_full Kmn Kmm Knn f none white).map Prod.snd =
        .ok (fun _ i j => Knn i j - ∑ m : Fin M, projA Kmm Kmn m i * projA Kmm Kmn m j)) ∧
    (∀ (M N R : ℕ) (Kmn : Mat M N) (Kmm : Mat M M) (Knn : Fin N → ℚ) (f : Mat M R)
        (white : Bool),
      (base_conditional_diag Kmn Kmm Knn f none white).map Prod.snd =
        .ok (fun n _ => Knn n - ∑ m : Fin M, (projA Kmm Kmn m n) ^ 2)) :=
  ⟨fun _ _ _ _ _ _ _ _ => rfl, fun _ _ _ _ _ _ _ _ => rfl⟩

/-- C8: for every `base_conditional` call with `full_cov = true` and a symmetric
`Knn`, each `N × N` covariance slice (per replica) of the returned variance is
symmetric, with and without a `q_sqrt` variational correction (the statement is about
whatever result the routine returns; rank-violating `q_sqrt` calls return an error on
both sides). -/
theorem base_conditional_fullcov_symmetric {M N R : ℕ}
    (Kmn : Mat M N) (Kmm : Mat M M) (Knn : Mat N N) (f : Mat M R)
    (q_sqrt : Option (QSqrt M R)) (white : Bool)
    (hsym : ∀ i j, Knn i j = Knn j i) :
    ∀ (r : Fin R) (i j : Fin N),
      (base_conditional_full Kmn Kmm Knn f q_sqrt white).map (fun mv => mv.2 r i j) =
      (base_conditional_full Kmn Kmm Knn f q_sqrt white).map (fun mv => mv.2 r j i) := by
  intro r i j
  rcases q_sqrt with _ | (q | Lq | ⟨k, v⟩)
  · show Except.ok _ = Except.ok _
    exact congrArg Except.ok (congrArg₂ (· - ·) (hsym i j) (sumMulComm _ _))
  · show Except.ok _ = Except.ok _
    exact congrArg Except.ok
      (congrArg₂ (· + ·) (congrArg₂ (· - ·) (hsym i j) (sumMulComm _ _)) (sumMulComm _ _))
  · show Except.ok _ = Except.ok _
    exact congrArg Except.ok
      (congrArg₂ (· + ·) (congrArg₂ (· - ·) (hsym i j) (sumMulComm _ _)) (sumMulComm _ _))
  · rfl

/-- Witness for C8 at a concrete input: `M = 1`, `N = 2`, `R = 1`, all tensors
constantly `1` (so `Knn` symmetric), `q_sqrt` omitted, `white = true`, at the
off-diagonal entry `(i, j) = (0, 1)` of the single replica slice. -/
theorem base_conditional_fullcov_symmetric_witness :
    (base_conditional_full (M := 1) (N := 2) (R := 1) (fun _ _ => (1 : ℚ))
      (fun _ _ => 1) (fun _ _ => 1) (fun _ _ => 1) none true).map (fun mv => mv.2 0 0 1) =
    (base_conditional_full (M := 1) (N := 2) (R := 1) (fun _ _ => (1 : ℚ))
      (fun _ _ => 1) (fun _ _ => 1) (fun _ _ => 1) none true).map (fun mv => mv.2 0 1 0) :=
  base_conditional_fullcov_symmetric (M := 1) (N := 2) (R := 1) (fun _ _ => (1 : ℚ))
    (fun _ _ => 1) (fun _ _ => 1) (fun _ _ => 1) none true (fun _ _ => rfl) 0 0 1

/-- C3 (counterexample): `independent_interdomain_conditional` does NOT reject a
`q_sqrt` of rank 1: at `M = L = N = P = 1`, `Kmn = Kmm = f ≡ 1`, `Knn ≡ 2`,
`white = true` and the rank-1 `q_sqrt = [3.0]`, the routine returns a result
(mean `1`, variance `2 - 1 + (1·3)² = 10`) instead of raising, refuting the claim
that every one of the three conditionals raises on a `q_sqrt` rank outside {2, 3}. -/
theorem interdomain_rank1_qsqrt_accepted :
    independent_interdomain_diag (M := 1) (L := 1) (N := 1) (P := 1)
      (fun _ _ _ _ => 1) (fun _ _ _ => 1) (fun _ _ => 2) (fun _ _ => 1)
      (some (.vec 1 (fun _ => 3))) true =
    .ok (fun _ _ => 1, fun _ _ => 10) := by
  simp only [independent_interdomain_diag, interA, lowerSolve, cholesky, cholCol, ratSqrt,
    finRangeOne, List.foldl_cons, List.foldl_nil]
  norm_num [Fin.sum_univ_succ, Prod.ext_iff]

/-- C3 (amended): `base_conditional` rejects a rank-1 `q_sqrt` with the
`ValueError` for all inputs, and `fully_correlated_conditional_repeat` fails
fatally on a rank-1 `q_sqrt` for all whitened inputs (in the band-part mask, i.e. a
shape error rather than the `ValueError` naming the rank); only
`independent_interdomain_conditional` performs no rank validation (see the
counterexample). -/
theorem qsqrt_rank_rejection_amended :
    (∀ (M N R : ℕ) (Kmn : Mat M N) (Kmm : Mat M M) (KnnD : Fin N → ℚ) (KnnF : Mat N N)
        (f : Mat M R) (k : ℕ) (v : Fin k → ℚ) (white : Bool),
      base_conditional_diag Kmn Kmm KnnD f (some (.vec k v)) white = .error .valueError ∧
      base_conditional_full Kmn Kmm KnnF f (some (.vec k v)) white = .error .valueError) ∧
    (∀ (J N K R : ℕ) (Kmn : Fin J → Fin N → Fin K → ℚ) (Kmm : Mat J J)
        (K1 : Fin N → Fin K → ℚ) (K2 : Fin K → Mat N N) (K3 : Fin N → Mat K K)
        (K4 : Fin N → Fin K → Fin N → Fin K → ℚ) (f : Mat J R) (k : ℕ) (v : Fin k → ℚ),
      fcc_repeat_diagdiag Kmn Kmm K1 f (some (.vec k v)) true = .error .shapeError ∧
      fcc_repeat_fullcov Kmn Kmm K2 f (some (.vec k v)) true = .error .shapeError ∧
      fcc_repeat_outputcov Kmn Kmm K3 f (some (.vec k v)) true = .error .shapeError ∧
      fcc_repeat_fullboth Kmn Kmm K4 f (some (.vec k v)) true = .error .shapeError) := by
  refine ⟨fun _ _ _ _ _ _ _ _ _ _ _ => ⟨rfl, rfl⟩,
    fun J N K R Kmn Kmm K1 K2 K3 K4 f k v => ⟨?_, rfl, rfl, rfl⟩⟩
  by_cases h : N * K = 1 <;> simp [fcc_repeat_diagdiag, h]

/-- C4 (counterexample): on the `full_cov = false`, `full_output_cov = false` path
with `N·P ≠ 1` (here `N = 2`, `P = 1`), a `white = false` call to
`fully_correlated_conditional_repeat` fails with the *shape* error from the
line-282 variance reshape, which precedes the `white` check at line 285 — not with
the claimed not-implemented error. -/
theorem fcc_unwhitened_error_not_notimplemented :
    fcc_repeat_diagdiag (J := 1) (N := 2) (K := 1) (R := 1)
      (fun _ _ _ => 1) (fun _ _ => 1) (fun _ _ => 1) (fun _ _ => 1) none false =
      .error .shapeError ∧ Err.shapeError ≠ Err.notImplemented :=
  ⟨rfl, by simp⟩

/-- C4 (amended): every `white = false` call to `fully_correlated_conditional_repeat`
or `fully_correlated_conditional` returns no result: it raises the fatal
not-implemented error of line 285, except on the `full_cov = false`,
`full_output_cov = false` path with `N·P ≠ 1`, where the line-282 variance reshape
fails first with a shape error. -/
theorem fully_correlated_unwhitened_fatal_amended :
    (∀ (J N K R : ℕ) (Kmn : Fin J → Fin N → Fin K → ℚ) (Kmm : Mat J J)
        (K1 : Fin N → Fin K → ℚ) (K2 : Fin K → Mat N N) (K3 : Fin N → Mat K K)
        (K4 : Fin N → Fin K → Fin N → Fin K → ℚ) (f : Mat J R)
        (q : Option (QSqrt J R)),
      fcc_repeat_diagdiag Kmn Kmm K1 f q false =
        .error (if N * K = 1 then Err.notImplemented else Err.shapeError) ∧
      fcc_repeat_fullcov Kmn Kmm K2 f q false = .error .notImplemented ∧
      fcc_repeat_outputcov Kmn Kmm K3 f q false = .error .notImplemented ∧
      fcc_repeat_fullboth Kmn Kmm K4 f q false = .error .notImplemented) ∧
    (∀ (J N K R : ℕ) [NeZero N] [NeZero K] [NeZero R]
        (Kmn : Fin J → Fin N → Fin K → ℚ) (Kmm : Mat J J)
        (K1 : Fin N → Fin K → ℚ) (K2 : Fin K → Mat N N) (K3 : Fin N → Mat K K)
        (K4 : Fin N → Fin K → Fin N → Fin K → ℚ) (f : Mat J R)
        (q : Option (QSqrt J R)),
      fully_correlated_diagdiag Kmn Kmm K1 f q false =
        .error (if N * K = 1 then Err.notImplemented else Err.shapeError) ∧
      fully_correlated_fullcov Kmn Kmm K2 f q false = .error .notImplemented ∧
      fully_correlated_outputcov Kmn Kmm K3 f q false = .error .notImplemented ∧
      fully_correlated_fullboth Kmn Kmm K4 f q false = .error .notImplemented) := by
  have hd : ∀ (J N K R : ℕ) (Kmn : Fin J → Fin N → Fin K → ℚ) (Kmm : Mat J J)
      (K1 : Fin N → Fin K → ℚ) (f : Mat J R) (q : Option (QSqrt J R)),
      fcc_repeat_diagdiag Kmn Kmm K1 f q false =
        .error (if N * K = 1 then Err.notImplemented else Err.shapeError) := by
    intro J N K R Kmn Kmm K1 f q
    by_cases h : N * K = 1 <;> simp [fcc_repeat_diagdiag, h]
  refine ⟨fun J N K R Kmn Kmm K1 K2 K3 K4 f q => ⟨hd _ _ _ _ _ _ _ _ _, rfl, rfl, rfl⟩,
    fun J N K R _ _ _ Kmn Kmm K1 K2 K3 K4 f q => ⟨?_, rfl, rfl, rfl⟩⟩
  rw [fully_correlated_diagdiag, hd _ _ _ _ Kmn Kmm K1 f q]

/-- Witness for C4 (amended) at a concrete input: `J = N = K = R = 1`
(discharging the `NeZero` premises), all tensors constantly `1`, `q_sqrt` omitted,
`white = false`. -/
theorem fully_correlated_unwhitened_fatal_amended_witness :
    fully_correlated_fullcov (J := 1) (N := 1) (K := 1) (R := 1)
      (fun _ _ _ => (1 : ℚ)) (fun _ _ => 1) (fun _ _ _ => 1) (fun _ _ => 1)
      none false = .error .notImplemented :=
  (fully_correlated_unwhitened_fatal_amended.2 1 1 1 1
    (fun _ _ _ => (1 : ℚ)) (fun _ _ => 1) (fun _ _ => 1) (fun _ _ _ => 1)
    (fun _ _ _ => 1) (fun _ _ _ _ => 1) (fun _ _ => 1) none).2.1

/-- C2 (code bug): the unwhitened (`white = false`) branch of
`independent_interdomain_conditional` does not perform the claimed transposed
back-substitution `A ← Lmᵀ⁻¹ · A`: line 190 passes the *untransposed* `Lm` and the
rank-4 tensor `Ar` to `tf.linalg.triangular_solve`, whose operands' batch shapes
(`[L]` vs `[L, M]`) are incompatible, so the call fails with a shape error and no
mean is produced.  Evaluated here at a concrete input (`L = 1`, `M = 2`, `N = 2`,
`P = 1`, `Kmm = [[1, 1], [1, 2]]`). -/
theorem interdomain_unwhitened_fails_shape :
    independent_interdomain_diag (M := 2) (L := 1) (N := 2) (P := 1)
      (fun m _ n _ => ![![(1 : ℚ), 1/2], ![1/3, 1/4]] m n) (fun _ => ![![1, 1], ![1, 2]])
      (fun _ _ => 1) (fun _ _ => 1) none false = .error .shapeError ∧
    independent_interdomain_fullcov (M := 2) (L := 1) (N := 2) (P := 1)
      (fun m _ n _ => ![![(1 : ℚ), 1/2], ![1/3, 1/4]] m n) (fun _ => ![![1, 1], ![1, 2]])
      (fun _ _ _ => 1) (fun _ _ => 1) none false = .error .shapeError :=
  ⟨rfl, rfl⟩

/-- C6: the concrete scenario — `M = 2`, `N = 3`, `Kmm = I₂`, `Kmn` a fixed known
`2 × 3` matrix, unit prior variance per query point, `function = [[1], [0]]`,
`q_sqrt` omitted, `white = true`, `full_cov = false` — yields mean
`fmean[n, 0] = Kmn[0, n]` and variance `fvar[n, 0] = 1 - (Kmn[0, n]² + Kmn[1, n]²)`,
the closed form from the identity-covariance simplification `A = Kmn`. -/
theorem base_conditional_concrete_scenario :
    base_conditional_diag (M := 2) (N := 3) (R := 1)
      ![![1/2, 1/3, 1/4], ![1/5, 1/6, 1/7]] (fun i j => if i = j then 1 else 0)
      (fun _ => 1) ![![1], ![0]] none true =
    .ok (fun n _ => ![![(1 : ℚ)/2, 1/3, 1/4], ![1/5, 1/6, 1/7]] 0 n,
      fun n _ => 1 - ((![![(1 : ℚ)/2, 1/3, 1/4], ![1/5, 1/6, 1/7]] 0 n) ^ 2 +
        (![![(1 : ℚ)/2, 1/3, 1/4], ![1/5, 1/6, 1/7]] 1 n) ^ 2)) := by
  simp only [base_conditional_diag, cholesky, cholCol, lowerSolve, ratSqrt,
    finRangeTwo, finRangeThree, List.foldl_cons, List.foldl_nil]
  norm_num [Fin.sum_univ_succ, Prod.ext_iff]

/-- C5 (code bug): with `L = 1`, `P = 1` and equivalent inputs (`M = 1`, `N = 2`,
`R = 1`, `full_cov = false`, `white = true`, `q_sqrt` omitted), `base_conditional`
returns a mean and variance, but `fully_correlated_conditional` raises the shape
error from reshaping the line-282 scalar to `(N, P) = (2, 1)`, so it cannot match
`base_conditional` numerically. -/
theorem reduction_to_base_fails_for_fully_correlated :
    base_conditional_diag (M := 1) (N := 2) (R := 1) (fun _ n => ![(1 : ℚ)/2, 1/3] n)
      (fun _ _ => 1) (fun _ => 1) (fun _ _ => 1) none true =
      .ok (fun n _ => ![(1 : ℚ)/2, 1/3] n, fun n _ => ![(3 : ℚ)/4, 8/9] n) ∧
    fully_correlated_diagdiag (J := 1) (N := 2) (K := 1) (R := 1)
      (fun _ n _ => ![(1 : ℚ)/2, 1/3] n) (fun _ _ => 1) (fun _ _ => 1) (fun _ _ => 1)
      none true = .error .shapeError := by
  refine ⟨?_, rfl⟩
  simp only [base_conditional_diag, cholesky, cholCol, lowerSolve, ratSqrt,
    finRangeOne, finRangeTwo, List.foldl_cons, List.foldl_nil]
  norm_num [Fin.sum_univ_succ, Prod.ext_iff]
  funext n r
  fin_cases n <;> norm_num

/-- C1 (code bug): with `q_sqrt` omitted, `fully_correlated_conditional_repeat`
returns a variance *without* the leading replica axis `R` (here, at `full_cov = true`,
`full_output_cov = false`, `J = 1`, `N = 2`, `K = 1`, `R = 2`, it returns the
`[K, N, N]` tensor tagged `noRep`), and `fully_correlated_conditional` then slices
off the leading *output* axis (`inl`) rather than dropping a replica axis, contrary
to the claimed `R × P × N × N` shape and `R = 1`-slice relationship. -/
theorem fcc_repeat_no_replica_axis_without_qsqrt :
    fcc_repeat_fullcov (J := 1) (N := 2) (K := 1) (R := 2)
      (fun _ n _ => ![(1 : ℚ)/2, 1/3] n) (fun _ _ => 1)
      (fun _ i j => if i = j then 1 else 0) (fun _ r => ![(1 : ℚ), 2] r) none true =
    .ok (fun r n _ => ![![(1 : ℚ)/2, 1/3], ![1, 2/3]] r n,
      .noRep (fun _ i j => ![![(3 : ℚ)/4, -1/6], ![-1/6, 8/9]] i j)) ∧
    fully_correlated_fullcov (J := 1) (N := 2) (K := 1) (R := 2)
      (fun _ n _ => ![(1 : ℚ)/2, 1/3] n) (fun _ _ => 1)
      (fun _ i j => if i = j then 1 else 0) (fun _ r => ![(1 : ℚ), 2] r) none true =
    .ok (fun n _ => ![(1 : ℚ)/2, 1/3] n,
      .inl (fun i j => ![![(3 : ℚ)/4, -1/6], ![-1/6, 8/9]] i j)) := by
  have h1 : fcc_repeat_fullcov (J := 1) (N := 2) (K := 1) (R := 2)
      (fun _ n _ => ![(1 : ℚ)/2, 1/3] n) (fun _ _ => 1)
      (fun _ i j => if i = j then 1 else 0) (fun _ r => ![(1 : ℚ), 2] r) none true =
      .ok (fun r n _ => ![![(1 : ℚ)/2, 1/3], ![1, 2/3]] r n,
        .noRep (fun _ i j => ![![(3 : ℚ)/4, -1/6], ![-1/6, 8/9]] i j)) := by
    simp only [fcc_repeat_fullcov, fccA, cholesky, cholCol, lowerSolve, ratSqrt,
      finRangeOne, finRangeTwo, List.foldl_cons, List.foldl_nil]
    norm_num [Fin.sum_univ_succ, Prod.ext_iff, VarRes.noRep.injEq]
    refine ⟨funext fun r => funext fun n => funext fun k => ?_,
      funext fun k => funext fun i => funext fun j => ?_⟩
    · fin_cases r <;> fin_cases n <;> norm_num
    · fin_cases k
      fin_cases i <;> fin_cases j <;> norm_num
  refine ⟨h1, ?_⟩
  simp only [fully_correlated_fullcov, h1]
  norm_num [Prod.ext_iff]

/-- C10: `base_conditional` does not enforce lower-triangularity of a rank-3
`q_sqrt`: the probes `qSqrtLow` and `qSqrtUp` agree on and below the diagonal yet
produce different variances (`1` vs `36` at `M = 2`, `N = R = 1`, `Kmm = I₂`,
`Kmn ≡ 1`, `white = true`), whereas `fully_correlated_conditional_repeat`, which
masks the strictly-upper triangle with `tf.matrix_band_part` before use, returns
identical results for the two probes. -/
theorem base_conditional_ignores_qsqrt_triangularity :
    (∀ (r : Fin 1) (i j : Fin 2), (j : ℕ) ≤ (i : ℕ) → qSqrtLow r i j = qSqrtUp r i j) ∧
    base_conditional_diag (M := 2) (N := 1) (R := 1) (fun _ _ => 1)
      (fun i j => if i = j then 1 else 0) (fun _ => 1) (fun m _ => ![(1 : ℚ), 0] m)
      (some (.full qSqrtLow)) true ≠
    base_conditional_diag (M := 2) (N := 1) (R := 1) (fun _ _ => 1)
      (fun i j => if i = j then 1 else 0) (fun _ => 1) (fun m _ => ![(1 : ℚ), 0] m)
      (some (.full qSqrtUp)) true ∧
    fcc_repeat_diagdiag (J := 2) (N := 1) (K := 1) (R := 1) (fun _ _ _ => 1)
      (fun i j => if i = j then 1 else 0) (fun _ _ => 1) (fun m _ => ![(1 : ℚ), 0] m)
      (some (.full qSqrtLow)) true =
    fcc_repeat_diagdiag (J := 2) (N := 1) (K := 1) (R := 1) (fun _ _ _ => 1)
      (fun i j => if i = j then 1 else 0) (fun _ _ => 1) (fun m _ => ![(1 : ℚ), 0] m)
      (some (.full qSqrtUp)) true := by
  have e1 : base_conditional_diag (M := 2) (N := 1) (R := 1) (fun _ _ => 1)
      (fun i j => if i = j then 1 else 0) (fun _ => 1) (fun m _ => ![(1 : ℚ), 0] m)
      (some (.full qSqrtLow)) true = .ok (fun _ _ => 1, fun _ _ => 1) := by
    simp only [base_conditional_diag, cholesky, cholCol, lowerSolve, ratSqrt,
      qSqrtLow, finRangeOne, finRangeTwo, List.foldl_cons, List.foldl_nil]
    norm_num [Fin.sum_univ_succ, Prod.ext_iff]
  have e2 : base_conditional_diag (M := 2) (N := 1) (R := 1) (fun _ _ => 1)
      (fun i j => if i = j then 1 else 0) (fun _ => 1) (fun m _ => ![(1 : ℚ), 0] m)
      (some (.full qSqrtUp)) true = .ok (fun _ _ => 1, fun _ _ => 36) := by
    simp only [base_conditional_diag, cholesky, cholCol, lowerSolve, ratSqrt,
      qSqrtUp, finRangeOne, finRangeTwo, List.foldl_cons, List.foldl_nil]
    norm_num [Fin.sum_univ_succ, Prod.ext_iff]
  have e3 : fcc_repeat_diagdiag (J := 2) (N := 1) (K := 1) (R := 1) (fun _ _ _ => 1)
      (fun i j => if i = j then 1 else 0) (fun _ _ => 1) (fun m _ => ![(1 : ℚ), 0] m)
      (some (.full qSqrtLow)) true =
      .ok (fun _ _ _ => 1, .rep (fun _ _ _ => 1)) := by
    simp only [fcc_repeat_diagdiag, fccA, cholesky, cholCol, lowerSolve, bandLower, ratSqrt,
      qSqrtLow, finRangeOne, finRangeTwo, List.foldl_cons, List.foldl_nil]
    norm_num [Fin.sum_univ_succ, Fintype.sum_prod_type, Prod.ext_iff, VarRes.rep.injEq,
      Finset.filter_singleton]
  have e4 : fcc_repeat_diagdiag (J := 2) (N := 1) (K := 1) (R := 1) (fun _ _ _ => 1)
      (fun i j => if i = j then 1 else 0) (fun _ _ => 1) (fun m _ => ![(1 : ℚ), 0] m)
      (some (.full qSqrtUp)) true =
      .ok (fun _ _ _ => 1, .rep (fun _ _ _ => 1)) := by
    simp only [fcc_repeat_diagdiag, fccA, cholesky, cholCol, lowerSolve, bandLower, ratSqrt,
      qSqrtUp, finRangeOne, finRangeTwo, List.foldl_cons, List.foldl_nil]
    norm_num [Fin.sum_univ_succ, Fintype.sum_prod_type, Prod.ext_iff, VarRes.rep.injEq,
      Finset.filter_singleton]
  refine ⟨?_, ?_, e3.trans e4.symm⟩
  · intro r i j h
    fin_cases i <;> fin_cases j
    · norm_num [qSqrtLow, qSqrtUp]
    · exfalso
      revert h
      decide
    · norm_num [qSqrtLow, qSqrtUp]
    · norm_num [qSqrtLow, qSqrtUp]
  · rw [e1, e2]
    intro hcon
    simp only [Except.ok.injEq, Prod.mk.injEq] at hcon
    have h2 := congrFun (congrFun hcon.2 0) 0
    norm_num at h2

/-- Witness for C10 at a concrete on-or-below-diagonal index (`i = 1`, `j = 0`),
discharging the `j ≤ i` premise of the first conjunct. -/
theorem base_conditional_ignores_qsqrt_triangularity_witness :
    qSqrtLow 0 1 0 = qSqrtUp 0 1 0 :=
  base_conditional_ignores_qsqrt_triangularity.1 0 1 0 (by norm_num)

end GPflowCond
